import Mathlib

set_option maxRecDepth 10000

/-!
Shallow embedding of the `sudoku_solver_rust` repository (`src/sudoku.rs`
and `src/solver.rs`) together with theorems about the embedded operations.

Representation conventions:
* A `Grid` (`[u8; 81]` in the source) is a total function `Nat → Nat`;
  the cells are the indices `0..80`.  Every grid built by the embedded
  constructors is `0` at indices `≥ 81`, and every embedded operation
  bounds-checks its indices before reading or writing, exactly as the
  source does, so indices `≥ 81` are never consulted.
* `usize` and `u8` values are `Nat` (no arithmetic in the source can
  overflow their ranges on the values that actually occur).
* `Result<T, E>` is `Except E T`; `HashSet<T>` is `Finset T`.
* The two source loops without a structural bound (the dead-end repair
  loop and the `solve` loop) take an explicit fuel argument and return
  the extra error `StepError.outOfFuel` when it runs out; theorems about
  `Except.ok` results are unaffected by this artifact.
* Randomness (`rand::thread_rng` / `gen_range`) is an explicit stream
  `rng : Nat → Nat` with a running index `k`; the draw for
  `gen_range(0..n)` with `n > 0` is `rng k % n`.  Drawing from an empty
  range (`n = 0`), which panics in the source, is modelled by the error
  `StepError.emptyRange`.
-/

namespace SudokuRs

/-- Converts row, column pairs into a one dimensional array index
(the `coords!` macro of `src/sudoku.rs`). -/
def coords (row column : Nat) : Nat := row * 9 + column

/-- Type of the 9*9 sudoku grid (type alias `Grid` of `src/sudoku.rs`). -/
abbrev Grid : Type := Nat → Nat

/-- Error type for bad indices or values (`SudokuError` of `src/sudoku.rs`). -/
inductive SudokuError where
  | BadRow (idx : Nat)
  | BadColumn (idx : Nat)
  | BadCoordinates (row column : Nat)
  | BadValue (value : Nat)
deriving DecidableEq

/-- Main game struct: the 9*9 grid of squares and a counter for how many
squares are currently set (`Sudoku` of `src/sudoku.rs`). -/
structure Sudoku where
  squares : Grid
  set_count : Nat

/-- Values of the nine cells of row `row`, as read by `Sudoku::get_row`:
entry `i` is `squares[row * 9 + i]`. -/
def rowVals (g : Grid) (row : Nat) : Fin 9 → Nat := fun i => g (coords row i.val)

/-- Values of the nine cells of column `column`, as read by
`Sudoku::get_column` (`squares[column..].iter().step_by(9)`):
entry `i` is `squares[column + 9 * i]`. -/
def colVals (g : Grid) (column : Nat) : Fin 9 → Nat := fun i => g (column + 9 * i.val)

/-- Values of the nine cells of the block at block coordinates
`(block_row, block_column)`, as read by `Sudoku::get_block`:
entry `i` is `squares[coords!(block_row * 3 + i / 3, block_column * 3 + i % 3)]`. -/
def blockVals (g : Grid) (block_row block_column : Nat) : Fin 9 → Nat :=
  fun i => g (coords (block_row * 3 + i.val / 3) (block_column * 3 + i.val % 3))

/-- Produces a new empty sudoku, every square `0` (`Sudoku::new_empty`). -/
def Sudoku.new_empty : Sudoku := { squares := fun _ => 0, set_count := 0 }

/-- One iteration of the `Sudoku::new_from_state` loop: write `state[i]`
into square `i` and bump `set_count` if the value is non-zero. -/
def nfsStep (state : Grid) (s : Sudoku) (i : Nat) : Sudoku :=
  { squares := Function.update s.squares i (state i),
    set_count := if state i ≠ 0 then s.set_count + 1 else s.set_count }

/-- Produces a new sudoku from a given 9*9 array of values
(`Sudoku::new_from_state`): starting from the empty sudoku, copy each of
the 81 values in order, incrementing `set_count` for each non-zero one. -/
def Sudoku.new_from_state (state : Grid) : Sudoku :=
  (List.range 81).foldl (nfsStep state) Sudoku.new_empty

/-- Returns the values of the given row (`Sudoku::get_row`), or
`BadRow` when the index is out of range (the `check!(row ...)` macro). -/
def Sudoku.get_row (s : Sudoku) (row : Nat) : Except SudokuError (Fin 9 → Nat) :=
  if 9 ≤ row then .error (.BadRow row) else .ok (rowVals s.squares row)

/-- Returns the values of the given column (`Sudoku::get_column`), or
`BadColumn` when the index is out of range. -/
def Sudoku.get_column (s : Sudoku) (column : Nat) : Except SudokuError (Fin 9 → Nat) :=
  if 9 ≤ column then .error (.BadColumn column) else .ok (colVals s.squares column)

/-- Returns the values of the given block (`Sudoku::get_block`), or
`BadCoordinates` when either block coordinate is `≥ 3`. -/
def Sudoku.get_block (s : Sudoku) (block_row block_column : Nat) :
    Except SudokuError (Fin 9 → Nat) :=
  if 3 ≤ block_row ∨ 3 ≤ block_column then .error (.BadCoordinates block_row block_column)
  else .ok (blockVals s.squares block_row block_column)

/-- Inserts a value into the sudoku (`Sudoku::set`): bounds-check the
coordinates (`check!(coords ...)`), then the value (`check!(value ...)`),
then increment `set_count` on a `0 → nonzero` transition, decrement it on
a `nonzero → 0` transition, and write the value. -/
def Sudoku.set (s : Sudoku) (row column : Nat) (value : Nat) : Except SudokuError Sudoku :=
  if 9 ≤ row ∨ 9 ≤ column then .error (.BadCoordinates row column)
  else if 9 < value then .error (.BadValue value)
  else
    .ok { squares := Function.update s.squares (coords row column) value,
          set_count :=
            if s.squares (coords row column) = 0 then
              (if value ≠ 0 then s.set_count + 1 else s.set_count)
            else
              (if value = 0 then s.set_count - 1 else s.set_count) }

/-- Checks if the given coordinates contain a non-zero value
(`Sudoku::is_set`). -/
def Sudoku.is_set (s : Sudoku) (row column : Nat) : Except SudokuError Bool :=
  if 9 ≤ row ∨ 9 ≤ column then .error (.BadCoordinates row column)
  else .ok (s.squares (coords row column) != 0)

/-- Number of non-zero cells of a grid (the quantity `set_count` tracks). -/
def nonzeroCount (g : Grid) : Nat := ((List.range 81).filter fun i => g i != 0).length

/-- Sudokus reachable through the public constructors and mutators of
`src/sudoku.rs`: `new_empty`, `new_from_state`, and successful `set`. -/
inductive Reachable : Sudoku → Prop where
  | empty : Reachable Sudoku.new_empty
  | fromState (state : Grid) : Reachable (Sudoku.new_from_state state)
  | set (s : Sudoku) (row column value : Nat) (s' : Sudoku) :
      Reachable s → s.set row column value = .ok s' → Reachable s'

/-! ### The solver layer (`src/solver.rs`) -/

/-- Simple row, column coordinate pair (`Coordinates` of `src/sudoku.rs`). -/
structure Coordinates where
  row : Nat
  column : Nat
deriving DecidableEq

/-- The `HashSet` with all nine possible values (`all_possible!` macro). -/
def all_possible : Finset Nat := {1, 2, 3, 4, 5, 6, 7, 8, 9}

/-- Squares that directly affect the possibilities for a given square
(`Neighbors` alias together with `From<Coordinates> for Neighbors`):
insert, for `i` in `0..9`, `(row, i)` and `(i, column)`; insert the nine
cells of the containing block; finally remove the cell itself. -/
def neighborsFrom (c : Coordinates) : Finset Coordinates :=
  let rowCol := (List.finRange 9).foldl
    (fun acc i => insert { row := i.val, column := c.column }
      (insert { row := c.row, column := i.val } acc)) (∅ : Finset Coordinates)
  let withBlock := (List.finRange 3).foldl
    (fun acc r => (List.finRange 3).foldl
      (fun acc2 cc => insert
        { row := c.row / 3 * 3 + r.val, column := c.column / 3 * 3 + cc.val } acc2) acc)
    rowCol
  withBlock.erase c

/-- The 81 cell coordinates in row-major order; used to enumerate the
members of a neighbor `HashSet` in a canonical order (a `HashSet`
iterates its members in an unspecified order, which the embedding fixes
to row-major; every neighbor of an in-range cell is an in-range cell, so
this enumerates exactly the members). -/
def coordList : List Coordinates := (List.range 81).map fun i => { row := i / 9, column := i % 9 }

/-- Collects a set of coordinates into a vector (`into_iter().collect::<Vec<_>>()`),
in the canonical row-major order. -/
def listOf (s : Finset Coordinates) : List Coordinates := coordList.filter (· ∈ s)

/-- Collects a `HashSet` of candidate values into an iteration sequence
(`into_iter()`), in the canonical increasing order.  Every candidate set
the solver builds is a subset of `all_possible!`, i.e. of `{1, ..., 9}`,
so filtering `0..10` enumerates exactly the members. -/
def valueVec (s : Finset Nat) : List Nat := (List.range 10).filter (· ∈ s)

/-- Solver struct: the sudoku to solve and a snapshot of the last secure
state (`Solver` of `src/solver.rs`). -/
structure Solver where
  sudoku : Sudoku
  last_secure_state : Grid
  last_secure_state_set : Bool

/-- Errors during solving.  `noPossibilities` and `sudokuError` are the
two variants of the source `SolverError`; `emptyRange` models the panic
of `rand::Rng::gen_range` on an empty range, and `outOfFuel` is the
artifact of bounding the two source loops that have no structural bound. -/
inductive StepError where
  | noPossibilities
  | sudokuError (e : SudokuError)
  | emptyRange
  | outOfFuel
deriving DecidableEq

/-- Random draws: the stream of raw values consumed by `thread_rng`. -/
abbrev RNG : Type := Nat → Nat

/-- Creates a new solver with the given sudoku (`Solver::new`), cloning
its squares as the initial `last_secure_state`. -/
def Solver.new (sudoku : Sudoku) : Solver :=
  { sudoku := sudoku, last_secure_state := sudoku.squares, last_secure_state_set := false }

/-- Result of the candidate-erasing loop of `Solver::get_possible`: from
`all_possible!`, remove each value of the cell's row, column and block. -/
def possOf (g : Grid) (row column : Nat) : Finset Nat :=
  (List.finRange 9).foldl
    (fun acc i => ((acc.erase (rowVals g row i)).erase (colVals g column i)).erase
      (blockVals g (row / 3) (column / 3) i))
    all_possible

/-- Gets the possible values for the given coordinates
(`Solver::get_possible`): bounds-check, fetch the row, the column and the
block `(row / 3, column / 3)`, and remove every one of their values from
`all_possible!`. -/
def Solver.get_possible (sv : Solver) (row column : Nat) :
    Except SudokuError (Finset Nat) :=
  if 9 ≤ row ∨ 9 ≤ column then .error (.BadCoordinates row column)
  else
    match sv.sudoku.get_row row, sv.sudoku.get_column column,
        sv.sudoku.get_block (row / 3) (column / 3) with
    | .error e, _, _ => .error e
    | .ok _, .error e, _ => .error e
    | .ok _, .ok _, .error e => .error e
    | .ok rv, .ok cv, .ok bv =>
        .ok ((List.finRange 9).foldl
          (fun acc i => ((acc.erase (rv i)).erase (cv i)).erase (bv i)) all_possible)

/-- Takes a snapshot of the current state and stores it as the last
secure state (`Solver::set_last_secure_state`). -/
def Solver.set_last_secure_state (sv : Solver) : Solver :=
  { sv with last_secure_state := sv.sudoku.squares, last_secure_state_set := true }

/-- Body of one iteration of the dead-end repair loop, up to the clearing
of the drawn neighbor: build the neighbor set of the stuck cell, drop
every neighbor that is non-zero in `last_secure_state`, draw a random
remaining neighbor (panicking — `emptyRange` — when none remains, which
models `gen_range(0..0)`), and clear it in the live grid.  Returns the
mutated sudoku and the advanced draw index. -/
def repairTry (sv : Solver) (row column : Nat) (rng : RNG) (k : Nat) :
    Except StepError (Sudoku × Nat) :=
  let neighbors := neighborsFrom { row := row, column := column }
  let possible_resets :=
    neighbors.filter fun n => sv.last_secure_state (coords n.row n.column) = 0
  let lst := listOf possible_resets
  if h : lst.length = 0 then .error .emptyRange
  else
    let reset := lst.get ⟨rng k % lst.length, Nat.mod_lt _ (Nat.pos_of_ne_zero h)⟩
    match sv.sudoku.set reset.row reset.column 0 with
    | .error e => .error (.sudokuError e)
    | .ok sd => .ok (sd, k + 1)

/-- Dead-end repair loop of `Solver::step` (`while possibilities.is_empty()`):
while the candidate set is empty, run `repairTry` (clear a randomly drawn
eligible neighbor) and recompute the candidates.  `fuel` bounds the number
of iterations, the source loop being unbounded. -/
def repairLoop : Nat → Solver → Finset Nat → Nat → Nat → RNG → Nat →
    Except StepError (Solver × Finset Nat × Nat)
  | 0, sv, poss, _, _, _, k =>
    if poss = ∅ then .error .outOfFuel else .ok (sv, poss, k)
  | f + 1, sv, poss, row, column, rng, k =>
    if poss = ∅ then
      match repairTry sv row column rng k with
      | .error e => .error e
      | .ok (sd, k1) =>
        match Solver.get_possible { sv with sudoku := sd } row column with
        | .error e => .error (.sudokuError e)
        | .ok poss1 => repairLoop f { sv with sudoku := sd } poss1 row column rng k1
    else .ok (sv, poss, k)

/-- Tracking of the cell with the fewest candidates seen so far in the
scan of `Solver::step`: when the current cell's candidate count is less
than or equal to the running minimum, clear `certain` and make the
current cell the tracked cell. -/
def trackLowest (poss : Finset Nat) (row column : Nat) (certain : Bool)
    (lowest : Finset Nat) (lowestCoords : Coordinates) :
    Bool × Finset Nat × Coordinates :=
  if poss.card ≤ lowest.card then (false, poss, { row := row, column := column })
  else (certain, lowest, lowestCoords)

/-- Mutable locals of the scan of `Solver::step`, together with the
solver being mutated. -/
structure ScanState where
  solver : Solver
  changed : Bool
  certain : Bool
  lowest : Finset Nat
  lowestCoords : Coordinates

/-- Processing of one unset cell in the scan of `Solver::step`: compute
its candidates, set `certain := false` if they are empty and run the
dead-end repair loop, track the fewest-candidate cell, and commit a
singleton candidate immediately (setting `changed`). -/
def processCell (fuel : Nat) (rng : RNG) (row column : Nat) (st : ScanState) (k : Nat) :
    Except StepError (ScanState × Nat) :=
  match st.solver.get_possible row column with
  | .error e => .error (.sudokuError e)
  | .ok poss0 =>
    let certain1 : Bool := if poss0 = ∅ then false else st.certain
    match repairLoop fuel st.solver poss0 row column rng k with
    | .error e => .error e
    | .ok (solver1, poss, k1) =>
      let t := trackLowest poss row column certain1 st.lowest st.lowestCoords
      if poss.card = 1 then
        match valueVec poss with
        | [] => .error .noPossibilities
        | v :: _ =>
          match solver1.sudoku.set row column v with
          | .error e => .error (.sudokuError e)
          | .ok sd =>
            .ok ({ solver := { solver1 with sudoku := sd }, changed := true,
                   certain := t.1, lowest := t.2.1, lowestCoords := t.2.2 }, k1)
      else
        .ok ({ solver := solver1, changed := st.changed,
               certain := t.1, lowest := t.2.1, lowestCoords := t.2.2 }, k1)

/-- The double `for` loop of `Solver::step` over the 81 cells in
row-major order: skip every set cell, process every unset one. -/
def scanCells (fuel : Nat) (rng : RNG) :
    List (Nat × Nat) → ScanState → Nat → Except StepError (ScanState × Nat)
  | [], st, k => .ok (st, k)
  | (row, column) :: rest, st, k =>
    match st.solver.sudoku.is_set row column with
    | .error e => .error (.sudokuError e)
    | .ok true => scanCells fuel rng rest st k
    | .ok false =>
      match processCell fuel rng row column st k with
      | .error e => .error e
      | .ok (st1, k1) => scanCells fuel rng rest st1 k1

/-- The 81 cells in the row-major order of the double `for` loop of
`Solver::step`. -/
def cellList : List (Nat × Nat) := (List.range 81).map fun i => (i / 9, i % 9)

/-- One step of the solver algorithm (`Solver::step`): scan all 81 cells;
if no square was set during the scan, commit a uniformly random value of
the tracked fewest-candidate set to the tracked cell (panicking —
`emptyRange` — when that set is empty); otherwise take the secure-state
snapshot when no snapshot was taken yet and the scan stayed certain. -/
def Solver.step (fuel : Nat) (sv : Solver) (rng : RNG) (k : Nat) :
    Except StepError (Solver × Nat) :=
  match scanCells fuel rng cellList
      { solver := sv, changed := false, certain := true,
        lowest := all_possible, lowestCoords := { row := 0, column := 0 } } k with
  | .error e => .error e
  | .ok (st, k1) =>
    if st.changed = false then
      let lowest_vec := valueVec st.lowest
      if h : lowest_vec.length = 0 then .error .emptyRange
      else
        let lowest := lowest_vec.get ⟨rng k1 % lowest_vec.length,
          Nat.mod_lt _ (Nat.pos_of_ne_zero h)⟩
        match st.solver.sudoku.set st.lowestCoords.row st.lowestCoords.column lowest with
        | .error e => .error (.sudokuError e)
        | .ok sd => .ok ({ st.solver with sudoku := sd }, k1 + 1)
    else
      if !st.solver.last_secure_state_set && st.certain then
        .ok (st.solver.set_last_secure_state, k1)
      else
        .ok (st.solver, k1)

/-- Runs the algorithm until all squares are set (`Solver::solve`):
repeat `step` while `set_count < 9 * 9`.  `fuel` bounds the number of
iterations, the source loop being unbounded. -/
def Solver.solve : Nat → Nat → Solver → RNG → Nat → Except StepError (Solver × Nat)
  | 0, _, sv, _, k =>
    if sv.sudoku.set_count < 9 * 9 then .error .outOfFuel else .ok (sv, k)
  | fuel + 1, stepFuel, sv, rng, k =>
    if sv.sudoku.set_count < 9 * 9 then
      match Solver.step stepFuel sv rng k with
      | .error e => .error e
      | .ok (sv1, k1) => Solver.solve fuel stepFuel sv1 rng k1
    else .ok (sv, k)

/-! ### Specification-side notions -/

/-- Two cell indices lie in the same row, the same column, or the same
3*3 block. -/
def sameUnit (a b : Nat) : Prop :=
  a / 9 = b / 9 ∨ a % 9 = b % 9 ∨ (a / 9 / 3 = b / 9 / 3 ∧ a % 9 / 3 = b % 9 / 3)

/-- Sudoku legality: for every row, every column and every 3*3 block,
all non-zero values are pairwise distinct. -/
def LegalGrid (g : Grid) : Prop :=
  ∀ i j : Fin 81, i ≠ j → sameUnit i.val j.val →
    g i.val ≠ 0 → g j.val ≠ 0 → g i.val ≠ g j.val

instance (a b : Nat) : Decidable (sameUnit a b) := by unfold sameUnit; infer_instance

instance (g : Grid) : Decidable (LegalGrid g) := by unfold LegalGrid; infer_instance

/-- Completely solved legal grid: every cell holds a value in `[1, 9]`
and the grid is legal. -/
def FullLegal (g : Grid) : Prop :=
  (∀ i : Fin 81, 1 ≤ g i.val ∧ g i.val ≤ 9) ∧ LegalGrid g

instance (g : Grid) : Decidable (FullLegal g) := by unfold FullLegal; infer_instance

/-- Solvable partially-filled grid: some completely solved legal grid
agrees with it on all its non-zero cells. -/
def Solvable (g : Grid) : Prop :=
  ∃ sol : Grid, FullLegal sol ∧ ∀ i : Fin 81, g i.val ≠ 0 → sol i.val = g i.val

/-- Grid `g'` is obtained from `g` by clearing some cells: every cell
either kept its value or is now `0`. -/
def ClearedFrom (g' g : Grid) : Prop := ∀ i : Nat, g' i = g i ∨ g' i = 0

/-- One iteration of the removal loop of `Solver::generate`: square `i`
is cleared when the draw `gen_range(0..100)` is below `difficulty`. -/
def genClear (difficulty : Nat) (rng : RNG) (k1 : Nat) (g : Grid) (i : Nat) : Grid :=
  if rng (k1 + i) % 100 < difficulty then Function.update g i 0 else g

/-- Generates a new sudoku (`Solver::generate`): solve an empty sudoku,
then reset each of the 81 squares with probability `difficulty` percent,
and return the result repackaged through `Sudoku::new_from_state`. -/
def Solver.generate (fuel stepFuel : Nat) (difficulty : Nat) (rng : RNG) (k : Nat) :
    Except StepError Sudoku :=
  match Solver.solve fuel stepFuel (Solver.new Sudoku.new_empty) rng k with
  | .error e => .error e
  | .ok (solver1, k1) =>
    .ok (Sudoku.new_from_state
      ((List.range 81).foldl (genClear difficulty rng k1) solver1.sudoku.squares))


/-- Text rendering of a sudoku (`impl Display for Sudoku`): iterate the
81 squares in row-major order; before every square other than the first
write the separator its index dictates, then write the square's text. -/
def Sudoku.render (s : Sudoku) : String :=
  (List.range 81).foldl
    (fun acc i =>
      let acc1 :=
        if i ≠ 0 then
          if i % 27 = 0 then acc ++ "\n----------------------\n"
          else if i % 9 = 0 then acc ++ "\n"
          else if i % 3 = 0 then acc ++ "| "
          else acc
        else acc
      if s.squares i ≠ 0 then acc1 ++ toString (s.squares i) ++ " " else acc1 ++ "  ") ""

/-- Cell text as the specification words it: a cell with value `v ≠ 0`
renders as the value followed by one space, an empty cell as two spaces. -/
def cellText (v : Nat) : String := if v ≠ 0 then toString v ++ " " else "  "

/-- Separator text as the specification words it, preceding the cell at
linear index `i`: nothing before cell `0`; otherwise the divider line for
multiples of 27, a newline for multiples of 9, a bar for multiples of 3,
and nothing for the rest. -/
def sepText (i : Nat) : String :=
  if i = 0 then ""
  else if i % 27 = 0 then "\n----------------------\n"
  else if i % 9 = 0 then "\n"
  else if i % 3 = 0 then "| "
  else ""

/-- Rendering as the specification words it: the concatenation, over the
81 cells in row-major order, of the cell's separator followed by the
cell's text. -/
def renderSpec (s : Sudoku) : String :=
  ((List.range 81).map fun i => sepText i ++ cellText (s.squares i)).foldl (· ++ ·) ""


/-- Grid with a stuck cell whose entire neighborhood is protected: cell
`(0, 0)` is empty, the rest of row 0 holds `1..8`, and every other
neighbor of `(0, 0)` — the rest of column 0 and of block `(0, 0)` — holds
`9`, so the candidate set of `(0, 0)` is empty while all 20 neighbors are
non-zero. -/
def g4L : List Nat :=
  [0, 1, 2, 3, 4, 5, 6, 7, 8]
    ++ [9, 9, 9, 0, 0, 0, 0, 0, 0]
    ++ [9, 9, 9, 0, 0, 0, 0, 0, 0]
    ++ (List.replicate 6 ([9] ++ List.replicate 8 0)).flatten

/-- Grid built from `g4L`. -/
def g4 : Grid := fun i => g4L.getD i 0

/-- Completely solved legal grid used as a concrete witness input. -/
def gsolL : List Nat :=
  [1, 2, 3, 4, 5, 6, 7, 8, 9]
    ++ [4, 5, 6, 7, 8, 9, 1, 2, 3]
    ++ [7, 8, 9, 1, 2, 3, 4, 5, 6]
    ++ [2, 3, 4, 5, 6, 7, 8, 9, 1]
    ++ [5, 6, 7, 8, 9, 1, 2, 3, 4]
    ++ [8, 9, 1, 2, 3, 4, 5, 6, 7]
    ++ [3, 4, 5, 6, 7, 8, 9, 1, 2]
    ++ [6, 7, 8, 9, 1, 2, 3, 4, 5]
    ++ [9, 1, 2, 3, 4, 5, 6, 7, 8]

/-- Grid built from `gsolL`. -/
def gsol : Grid := fun i => gsolL.getD i 0

/-- Well-formed sudoku: `set_count` equals the number of non-zero cells
and the grid is legal. -/
def WF (s : Sudoku) : Prop := s.set_count = nonzeroCount s.squares ∧ LegalGrid s.squares

/-- The tracked fewest-candidate cell of a scan is usable for the final
random guess: its coordinates are in range and the tracked candidate set
is a non-empty subset of the cell's current candidate set. -/
def TrackedOk (st : ScanState) : Prop :=
  st.lowestCoords.row < 9 ∧ st.lowestCoords.column < 9 ∧ st.lowest ≠ ∅ ∧
    st.lowest ⊆ possOf st.solver.sudoku.squares st.lowestCoords.row st.lowestCoords.column

/-! ### Basic lemmas about the embedded operations -/

section SymbolicProofs

/- Sealing the computation-heavy definitions while proving the symbolic
lemmas keeps definitional unfolding from diving into them; the attribute
is local to this section and all rewriting goes through their equations. -/
attribute [local irreducible] repairTry processCell scanCells Solver.step
  Solver.solve Solver.generate neighborsFrom listOf valueVec

@[simp] theorem coords_def (row column : Nat) : coords row column = row * 9 + column := rfl

@[simp] theorem rowVals_apply (g : Grid) (r : Nat) (i : Fin 9) :
    rowVals g r i = g (r * 9 + i.val) := rfl

@[simp] theorem colVals_apply (g : Grid) (c : Nat) (i : Fin 9) :
    colVals g c i = g (c + 9 * i.val) := rfl

@[simp] theorem blockVals_apply (g : Grid) (br bc : Nat) (i : Fin 9) :
    blockVals g br bc i = g ((br * 3 + i.val / 3) * 9 + (bc * 3 + i.val % 3)) := rfl

theorem mem_all_possible (x : Nat) : x ∈ all_possible ↔ 1 ≤ x ∧ x ≤ 9 := by
  unfold all_possible
  simp only [Finset.mem_insert, Finset.mem_singleton]
  omega

theorem card_all_possible : all_possible.card = 9 := by decide

theorem mem_eraseFold (u v w : Fin 9 → Nat) (l : List (Fin 9)) :
    ∀ (acc : Finset Nat) (x : Nat),
      x ∈ l.foldl (fun a i => ((a.erase (u i)).erase (v i)).erase (w i)) acc ↔
        (x ∈ acc ∧ ∀ i ∈ l, x ≠ u i ∧ x ≠ v i ∧ x ≠ w i) := by
  induction l with
  | nil => intro acc x; simp
  | cons a t ih =>
    intro acc x
    rw [List.foldl_cons, ih]
    simp only [Finset.mem_erase, List.mem_cons, forall_eq_or_imp]
    tauto

theorem mem_possOf (g : Grid) (r c x : Nat) :
    x ∈ possOf g r c ↔
      (x ∈ all_possible ∧ ∀ i : Fin 9,
        x ≠ rowVals g r i ∧ x ≠ colVals g c i ∧ x ≠ blockVals g (r / 3) (c / 3) i) := by
  unfold possOf
  rw [mem_eraseFold]
  simp [List.mem_finRange]

theorem possOf_subset (g : Grid) (r c : Nat) : possOf g r c ⊆ all_possible :=
  fun _ hx => ((mem_possOf g r c _).mp hx).1

theorem possOf_card_le (g : Grid) (r c : Nat) : (possOf g r c).card ≤ 9 := by
  have h := Finset.card_le_card (possOf_subset g r c)
  rwa [card_all_possible] at h

theorem possOf_ne_zero (g : Grid) (r c x : Nat) (hx : x ∈ possOf g r c) : x ≠ 0 := by
  have h := (mem_all_possible x).mp ((mem_possOf g r c x).mp hx).1
  omega

theorem get_possible_eq (sv : Solver) (row column : Nat) (hr : row < 9) (hc : column < 9) :
    sv.get_possible row column = .ok (possOf sv.sudoku.squares row column) := by
  unfold Solver.get_possible Sudoku.get_row Sudoku.get_column Sudoku.get_block
  rw [if_neg (by omega), if_neg (by omega : ¬9 ≤ row), if_neg (by omega : ¬9 ≤ column),
    if_neg (by omega : ¬(3 ≤ row / 3 ∨ 3 ≤ column / 3))]
  rfl

theorem get_possible_ok_inv (sv : Solver) (row column : Nat) (poss : Finset Nat)
    (h : sv.get_possible row column = .ok poss) :
    row < 9 ∧ column < 9 ∧ poss = possOf sv.sudoku.squares row column := by
  by_cases hb : 9 ≤ row ∨ 9 ≤ column
  · rw [Solver.get_possible, if_pos hb] at h
    exact absurd h (by simp)
  · push_neg at hb
    rw [get_possible_eq sv row column (by omega) (by omega)] at h
    exact ⟨by omega, by omega, (Except.ok.inj h).symm⟩

theorem clearedFrom_refl (g : Grid) : ClearedFrom g g := fun _ => Or.inl rfl

theorem clearedFrom_trans (g g' g'' : Grid) (h1 : ClearedFrom g' g) (h2 : ClearedFrom g'' g') :
    ClearedFrom g'' g := by
  intro i
  rcases h2 i with h | h
  · rw [h]; exact h1 i
  · exact Or.inr h

theorem clearedFrom_update_zero (g g' : Grid) (h : ClearedFrom g' g) (j : Nat) :
    ClearedFrom (Function.update g' j 0) g := by
  intro i
  rcases eq_or_ne i j with rfl | hij
  · exact Or.inr (Function.update_same _ _ _)
  · rw [Function.update_noteq hij]; exact h i

theorem possOf_mono (g g' : Grid) (h : ClearedFrom g' g) (r c : Nat) :
    possOf g r c ⊆ possOf g' r c := by
  intro x hx
  rw [mem_possOf] at hx ⊢
  obtain ⟨hall, hav⟩ := hx
  have hx0 : x ≠ 0 := by have := (mem_all_possible x).mp hall; omega
  refine ⟨hall, fun i => ?_⟩
  obtain ⟨h1, h2, h3⟩ := hav i
  simp only [rowVals_apply, colVals_apply, blockVals_apply] at h1 h2 h3 ⊢
  refine ⟨?_, ?_, ?_⟩
  · rcases h (r * 9 + i.val) with hh | hh <;> rw [hh] <;> assumption
  · rcases h (c + 9 * i.val) with hh | hh <;> rw [hh] <;> assumption
  · rcases h ((r / 3 * 3 + i.val / 3) * 9 + (c / 3 * 3 + i.val % 3)) with hh | hh <;>
      rw [hh] <;> assumption

theorem set_ok_inv (s : Sudoku) (row column value : Nat) (s' : Sudoku)
    (h : s.set row column value = .ok s') :
    row < 9 ∧ column < 9 ∧ value ≤ 9 ∧
      s'.squares = Function.update s.squares (coords row column) value ∧
      s'.set_count =
        (if s.squares (coords row column) = 0 then
          (if value ≠ 0 then s.set_count + 1 else s.set_count)
        else
          (if value = 0 then s.set_count - 1 else s.set_count)) := by
  rw [Sudoku.set] at h
  split at h
  · exact absurd h (by simp)
  · split at h
    · exact absurd h (by simp)
    · have hs := (Except.ok.inj h).symm
      subst hs
      refine ⟨by omega, by omega, by omega, rfl, rfl⟩

theorem filter_update_length (g : Grid) (j v : Nat) :
    ∀ l : List Nat, l.Nodup → j ∈ l →
      ((l.filter fun i => Function.update g j v i != 0).length + (if g j ≠ 0 then 1 else 0)
        = (l.filter fun i => g i != 0).length + (if v ≠ 0 then 1 else 0)) := by
  intro l
  induction l with
  | nil => intro _ hj; exact absurd hj (List.not_mem_nil j)
  | cons a t ih =>
    intro hnd hj
    have hnd' := List.nodup_cons.mp hnd
    rcases List.mem_cons.mp hj with rfl | hjt
    · have hfilter : (t.filter fun i => Function.update g j v i != 0)
          = t.filter fun i => g i != 0 := by
        apply List.filter_congr
        intro i hi
        rw [Function.update_noteq (by rintro rfl; exact hnd'.1 hi)]
      simp only [List.filter_cons, hfilter, Function.update_same, bne_iff_ne, ne_eq,
        List.length_cons, apply_ite List.length]
      split_ifs <;> omega
    · have ha : Function.update g j v a = g a :=
        Function.update_noteq (by rintro rfl; exact hnd'.1 hjt) _ _
      have hrec := ih hnd'.2 hjt
      simp only [List.filter_cons, ha, bne_iff_ne, ne_eq, List.length_cons,
        apply_ite List.length] at hrec ⊢
      split_ifs at hrec ⊢ <;> omega

theorem nonzeroCount_update (g : Grid) (j v : Nat) (hj : j < 81) :
    nonzeroCount (Function.update g j v) + (if g j ≠ 0 then 1 else 0)
      = nonzeroCount g + (if v ≠ 0 then 1 else 0) :=
  filter_update_length g j v (List.range 81) (List.nodup_range 81)
    (List.mem_range.mpr hj)

theorem nonzeroCount_le (g : Grid) : nonzeroCount g ≤ 81 := by
  have h := List.length_filter_le (fun i => g i != 0) (List.range 81)
  simpa [nonzeroCount] using h

theorem nonzeroCount_pos (g : Grid) (j : Nat) (hj : j < 81) (h : g j ≠ 0) :
    1 ≤ nonzeroCount g := by
  have hmem : j ∈ (List.range 81).filter fun i => g i != 0 :=
    List.mem_filter.mpr ⟨List.mem_range.mpr hj, by simpa using h⟩
  have := List.length_pos.mpr (List.ne_nil_of_mem hmem)
  simpa [nonzeroCount] using this

theorem filter_length_eq_all {α : Type} (p : α → Bool) :
    ∀ l : List α, (l.filter p).length = l.length → ∀ x ∈ l, p x = true := by
  intro l
  induction l with
  | nil => intro _ x hx; exact absurd hx (List.not_mem_nil x)
  | cons a t ih =>
    intro hlen x hx
    by_cases hpa : p a = true
    · rcases List.mem_cons.mp hx with rfl | hxt
      · exact hpa
      · refine ih ?_ x hxt
        simpa [List.filter_cons, hpa] using hlen
    · exfalso
      have hle := List.length_filter_le p t
      rw [List.filter_cons, if_neg hpa] at hlen
      simp only [List.length_cons] at hlen
      omega

theorem nonzeroCount_eq_81 (g : Grid) (h : nonzeroCount g = 81) :
    ∀ i : Nat, i < 81 → g i ≠ 0 := by
  intro i hi
  have hall := filter_length_eq_all (fun i => g i != 0) (List.range 81)
    (by simpa [nonzeroCount] using h) i (List.mem_range.mpr hi)
  simpa using hall

theorem new_empty_count : Sudoku.new_empty.set_count = nonzeroCount Sudoku.new_empty.squares := by
  decide

theorem nfs_fold_squares (state : Grid) :
    ∀ (l : List Nat) (s : Sudoku) (i : Nat),
      ((l.foldl (nfsStep state) s).squares i) = if i ∈ l then state i else s.squares i := by
  intro l
  induction l with
  | nil => intro s i; simp
  | cons a t ih =>
    intro s i
    rw [List.foldl_cons, ih]
    by_cases hit : i ∈ t
    · simp [hit, List.mem_cons]
    · by_cases hia : i = a
      · subst hia
        simp [hit, nfsStep, Function.update_same]
      · simp [hit, hia, nfsStep, Function.update_noteq hia]

theorem nfs_fold_count (state : Grid) :
    ∀ (l : List Nat) (s : Sudoku),
      (l.foldl (nfsStep state) s).set_count
        = s.set_count + (l.filter fun i => state i != 0).length := by
  intro l
  induction l with
  | nil => intro s; simp
  | cons a t ih =>
    intro s
    rw [List.foldl_cons, ih]
    by_cases hsa : state a = 0 <;> simp [nfsStep, List.filter_cons, hsa]
    omega

theorem new_from_state_squares (state : Grid) (i : Nat) :
    (Sudoku.new_from_state state).squares i = if i < 81 then state i else 0 := by
  rw [Sudoku.new_from_state, nfs_fold_squares]
  simp [List.mem_range, Sudoku.new_empty]

theorem new_from_state_count (state : Grid) :
    (Sudoku.new_from_state state).set_count
      = nonzeroCount (Sudoku.new_from_state state).squares := by
  have hfilter : ((List.range 81).filter fun i => (Sudoku.new_from_state state).squares i != 0)
      = (List.range 81).filter fun i => state i != 0 := by
    apply List.filter_congr
    intro i hi
    rw [new_from_state_squares state i, if_pos (List.mem_range.mp hi)]
  rw [nonzeroCount, hfilter, Sudoku.new_from_state, nfs_fold_count]
  simp [Sudoku.new_empty]

theorem sameUnit_symm (a b : Nat) (h : sameUnit a b) : sameUnit b a := by
  rcases h with h | h | ⟨h1, h2⟩
  · exact Or.inl h.symm
  · exact Or.inr (Or.inl h.symm)
  · exact Or.inr (Or.inr ⟨h1.symm, h2.symm⟩)

theorem possOf_avoid (g : Grid) (r c v : Nat) (_hr : r < 9) (hc : c < 9)
    (hv : v ∈ possOf g r c) :
    ∀ jv : Nat, jv < 81 → sameUnit (r * 9 + c) jv → v ≠ g jv := by
  rw [mem_possOf] at hv
  obtain ⟨hall, hav⟩ := hv
  intro jv hjv hsame
  rcases hsame with hrow | hcol | ⟨hbr, hbc⟩
  · have h1 := (hav ⟨jv % 9, by omega⟩).1
    simp only [rowVals_apply] at h1
    have heq : r * 9 + jv % 9 = jv := by omega
    rwa [heq] at h1
  · have h2 := (hav ⟨jv / 9, by omega⟩).2.1
    simp only [colVals_apply] at h2
    have heq : c + 9 * (jv / 9) = jv := by omega
    rwa [heq] at h2
  · have h3 := (hav ⟨jv / 9 % 3 * 3 + jv % 9 % 3, by omega⟩).2.2
    simp only [blockVals_apply] at h3
    have heq : (r / 3 * 3 + (jv / 9 % 3 * 3 + jv % 9 % 3) / 3) * 9
        + (c / 3 * 3 + (jv / 9 % 3 * 3 + jv % 9 % 3) % 3) = jv := by omega
    rwa [heq] at h3

theorem LegalGrid_update_possOf (g : Grid) (r c v : Nat) (hr : r < 9) (hc : c < 9)
    (hL : LegalGrid g) (hv : v ∈ possOf g r c) :
    LegalGrid (Function.update g (coords r c) v) := by
  have havoid := possOf_avoid g r c v hr hc hv
  intro i j hne hunit hi hj
  simp only [coords_def, Function.update_apply] at hi hj ⊢
  by_cases h1 : i.val = r * 9 + c <;> by_cases h2 : j.val = r * 9 + c
  · exact absurd (Fin.ext (h1.trans h2.symm)) hne
  · rw [if_pos h1, if_neg h2]
    have hu : sameUnit (r * 9 + c) j.val := by rw [← h1]; exact hunit
    exact havoid j.val j.isLt hu
  · rw [if_neg h1, if_pos h2]
    rw [if_neg h1] at hi
    have hu : sameUnit i.val (r * 9 + c) := by rw [← h2]; exact hunit
    exact (havoid i.val i.isLt (sameUnit_symm _ _ hu)).symm
  · rw [if_neg h1, if_neg h2]
    rw [if_neg h1] at hi
    rw [if_neg h2] at hj
    exact hL i j hne hunit hi hj

theorem LegalGrid_update_zero (g : Grid) (j : Nat) (hL : LegalGrid g) :
    LegalGrid (Function.update g j 0) := by
  intro a b hne hunit ha hb
  simp only [Function.update_apply] at ha hb ⊢
  by_cases h1 : a.val = j
  · rw [if_pos h1] at ha
    exact absurd rfl ha
  · by_cases h2 : b.val = j
    · rw [if_pos h2] at hb
      exact absurd rfl hb
    · rw [if_neg h1] at ha ⊢
      rw [if_neg h2] at hb ⊢
      exact hL a b hne hunit ha hb

theorem set_preserves_count (s : Sudoku) (r c v : Nat) (s' : Sudoku)
    (h : s.set r c v = .ok s') (hc : s.set_count = nonzeroCount s.squares) :
    s'.set_count = nonzeroCount s'.squares := by
  obtain ⟨hr9, hc9, hv9, hsq, hcnt⟩ := set_ok_inv _ _ _ _ _ h
  simp only [coords_def] at hsq hcnt
  have hup := nonzeroCount_update s.squares (r * 9 + c) v (by omega)
  rw [hsq, hcnt, hc]
  by_cases hold : s.squares (r * 9 + c) = 0
  · split_ifs at hup ⊢ <;> omega
  · have hpos := nonzeroCount_pos s.squares (r * 9 + c) (by omega) hold
    split_ifs at hup ⊢ <;> omega

theorem set_preserves_WF (s : Sudoku) (r c v : Nat) (s' : Sudoku)
    (h : s.set r c v = .ok s') (hwf : WF s)
    (hv : v = 0 ∨ v ∈ possOf s.squares r c) : WF s' := by
  obtain ⟨hr9, hc9, hv9, hsq, hcnt⟩ := set_ok_inv _ _ _ _ _ h
  refine ⟨set_preserves_count s r c v s' h hwf.1, ?_⟩
  rw [hsq]
  rcases hv with rfl | hv
  · exact LegalGrid_update_zero _ _ hwf.2
  · exact LegalGrid_update_possOf _ _ _ _ hr9 hc9 hwf.2 hv

theorem mem_valueVec (s : Finset Nat) (x : Nat) : x ∈ valueVec s ↔ x < 10 ∧ x ∈ s := by
  simp [valueVec, List.mem_filter, List.mem_range]

theorem valueVec_head_mem (s : Finset Nat) (v : Nat) (t : List Nat)
    (h : valueVec s = v :: t) : v ∈ s := by
  have hv : v ∈ valueVec s := by rw [h]; exact List.mem_cons_self v t
  exact ((mem_valueVec s v).mp hv).2

theorem valueVec_ne_nil (s : Finset Nat) (hsub : s ⊆ all_possible) (hne : s ≠ ∅) :
    valueVec s ≠ [] := by
  obtain ⟨x, hx⟩ := Finset.nonempty_iff_ne_empty.mpr hne
  have hx10 : x < 10 := by have := (mem_all_possible x).mp (hsub hx); omega
  exact List.ne_nil_of_mem ((mem_valueVec s x).mpr ⟨hx10, hx⟩)

theorem is_set_ok_inv (s : Sudoku) (r c : Nat) (b : Bool) (h : s.is_set r c = .ok b) :
    r < 9 ∧ c < 9 ∧ (b = true ↔ s.squares (coords r c) ≠ 0) := by
  rw [Sudoku.is_set] at h
  split at h
  · exact absurd h (by simp)
  · have hb := Except.ok.inj h
    refine ⟨by omega, by omega, ?_⟩
    rw [← hb]
    simp [bne_iff_ne]

theorem repairTry_ok (sv : Solver) (row column : Nat) (rng : RNG) (k : Nat)
    (sd : Sudoku) (k1 : Nat) (h : repairTry sv row column rng k = .ok (sd, k1)) :
    ClearedFrom sd.squares sv.sudoku.squares ∧ (WF sv.sudoku → WF sd) := by
  rw [repairTry] at h
  split at h
  · exact absurd h (by simp)
  · simp only [] at h
    split at h
    · exact absurd h (by simp)
    · rename_i heq _ _ hset
      simp only [Except.ok.injEq, Prod.mk.injEq] at h
      obtain ⟨rfl, rfl⟩ := h
      obtain ⟨_, _, _, hsq, _⟩ := set_ok_inv _ _ _ _ _ hset
      constructor
      · rw [hsq]
        exact clearedFrom_update_zero _ _ (clearedFrom_refl _) _
      · intro hwf
        exact set_preserves_WF _ _ _ _ _ hset hwf (Or.inl rfl)

theorem repairLoop_ok (rng : RNG) (row column : Nat) :
    ∀ (fuel : Nat) (sv : Solver) (poss : Finset Nat) (k : Nat)
      (sv' : Solver) (poss' : Finset Nat) (k' : Nat),
      repairLoop fuel sv poss row column rng k = .ok (sv', poss', k') →
      sv.get_possible row column = .ok poss →
      (sv'.get_possible row column = .ok poss'
        ∧ poss' ≠ ∅
        ∧ ClearedFrom sv'.sudoku.squares sv.sudoku.squares
        ∧ sv'.last_secure_state = sv.last_secure_state
        ∧ sv'.last_secure_state_set = sv.last_secure_state_set
        ∧ (WF sv.sudoku → WF sv'.sudoku)) := by
  intro fuel
  induction fuel with
  | zero =>
    intro sv poss k sv' poss' k' h hposs
    simp only [repairLoop] at h
    split at h
    · exact absurd h (by simp)
    · simp only [Except.ok.injEq, Prod.mk.injEq] at h
      obtain ⟨rfl, rfl, rfl⟩ := h
      exact ⟨hposs, by assumption, clearedFrom_refl _, rfl, rfl, id⟩
  | succ f ih =>
    intro sv poss k sv' poss' k' h hposs
    simp only [repairLoop] at h
    split at h
    · -- the candidate set is empty: one repair iteration happened
      split at h
      · exact absurd h (by simp)
      · rename_i sd k1 htry
        split at h
        · exact absurd h (by simp)
        · rename_i poss1 hposs1
          obtain ⟨hg, hne, hclr, hsnap1, hsnap2, hwf⟩ :=
            ih { sv with sudoku := sd } poss1 k1 sv' poss' k' h hposs1
          obtain ⟨hclr0, hwf0⟩ := repairTry_ok _ _ _ _ _ _ _ htry
          exact ⟨hg, hne, clearedFrom_trans _ _ _ hclr0 hclr, hsnap1, hsnap2,
            fun hw => hwf (hwf0 hw)⟩
    · simp only [Except.ok.injEq, Prod.mk.injEq] at h
      obtain ⟨rfl, rfl, rfl⟩ := h
      exact ⟨hposs, by assumption, clearedFrom_refl _, rfl, rfl, id⟩

theorem processCell_ok (fuel : Nat) (rng : RNG) (row column : Nat)
    (st : ScanState) (k : Nat) (st1 : ScanState) (k1 : Nat)
    (h : processCell fuel rng row column st k = .ok (st1, k1))
    (hr : row < 9) (hc : column < 9) (hlow : st.lowest ≠ ∅) :
    (WF st.solver.sudoku → WF st1.solver.sudoku)
    ∧ st1.solver.last_secure_state = st.solver.last_secure_state
    ∧ st1.solver.last_secure_state_set = st.solver.last_secure_state_set
    ∧ st1.lowest ≠ ∅
    ∧ (st1.changed = true ∨ st1.changed = st.changed)
    ∧ (st1.certain = true →
        (st.certain = true ∧ st1.changed = st.changed ∧ st1.lowest = st.lowest
          ∧ st.lowest.card < 9))
    ∧ (st1.changed = false →
        (st1.changed = st.changed
          ∧ ClearedFrom st1.solver.sudoku.squares st.solver.sudoku.squares
          ∧ (TrackedOk st1
              ∨ (st1.lowest = st.lowest ∧ st1.lowestCoords = st.lowestCoords
                  ∧ st.lowest.card < 9)))) := by
  rw [processCell] at h
  split at h
  · exact absurd h (by simp)
  · rename_i poss0 hposs0
    simp only [] at h
    split at h
    · exact absurd h (by simp)
    · rename_i solver1 poss k1' hrep
      obtain ⟨hg1, hpne, hclr, hsn1, hsn2, hwfp⟩ :=
        repairLoop_ok rng row column fuel st.solver poss0 k solver1 poss k1' hrep hposs0
      obtain ⟨_, _, hpeq⟩ := get_possible_ok_inv _ _ _ _ hg1
      have hcard9 : poss.card ≤ 9 := by rw [hpeq]; exact possOf_card_le _ _ _
      have hlowpos : 1 ≤ st.lowest.card :=
        Finset.card_pos.mpr (Finset.nonempty_iff_ne_empty.mpr hlow)
      split at h
      · -- singleton candidate: commit it, setting `changed`
        rename_i hone
        have hfired : poss.card ≤ st.lowest.card := by omega
        have htl : trackLowest poss row column (if poss0 = ∅ then false else st.certain)
            st.lowest st.lowestCoords = (false, poss, { row := row, column := column }) := by
          rw [trackLowest, if_pos hfired]
        split at h
        · exact absurd h (by simp)
        · rename_i v tl hvv
          split at h
          · exact absurd h (by simp)
          · rename_i sd hset
            simp only [Except.ok.injEq, Prod.mk.injEq] at h
            obtain ⟨h1, rfl⟩ := h
            subst h1
            have hvmem : v ∈ possOf solver1.sudoku.squares row column := by
              rw [← hpeq]; exact valueVec_head_mem _ _ _ hvv
            refine ⟨?_, hsn1, hsn2, ?_, Or.inl rfl, ?_, ?_⟩
            · intro hwf
              exact set_preserves_WF _ _ _ _ _ hset (hwfp hwf) (Or.inr hvmem)
            · simp only [htl]
              exact hpne
            · intro hcert
              simp only [htl] at hcert
              exact absurd hcert (by simp)
            · intro hfalse
              exact absurd hfalse (by simp)
      · -- no commit
        rename_i hnotone
        simp only [Except.ok.injEq, Prod.mk.injEq] at h
        obtain ⟨h1, rfl⟩ := h
        subst h1
        by_cases hfired : poss.card ≤ st.lowest.card
        · -- the tracking branch fired: the current cell becomes tracked
          have htl : trackLowest poss row column (if poss0 = ∅ then false else st.certain)
              st.lowest st.lowestCoords = (false, poss, { row := row, column := column }) := by
            rw [trackLowest, if_pos hfired]
          refine ⟨hwfp, hsn1, hsn2, ?_, Or.inr rfl, ?_, ?_⟩
          · simp only [htl]
            exact hpne
          · intro hcert
            simp only [htl] at hcert
            exact absurd hcert (by simp)
          · intro _
            refine ⟨rfl, hclr, Or.inl ?_⟩
            simp only [TrackedOk, htl]
            refine ⟨hr, hc, hpne, ?_⟩
            rw [hpeq]
        · -- the tracking branch did not fire: the old tracked cell stays
          have hcardlt : st.lowest.card < 9 := by omega
          have htl : trackLowest poss row column (if poss0 = ∅ then false else st.certain)
              st.lowest st.lowestCoords
              = ((if poss0 = ∅ then false else st.certain), st.lowest, st.lowestCoords) := by
            rw [trackLowest, if_neg hfired]
          refine ⟨hwfp, hsn1, hsn2, ?_, Or.inr rfl, ?_, ?_⟩
          · simp only [htl]
            exact hlow
          · intro hcert
            simp only [htl] at hcert
            have hc1 : st.certain = true := by
              by_cases hp0 : poss0 = ∅
              · simp [hp0] at hcert
              · simpa [hp0] using hcert
            exact ⟨hc1, rfl, by simp only [htl], hcardlt⟩
          · intro _
            exact ⟨rfl, hclr, Or.inr ⟨by simp only [htl], by simp only [htl], hcardlt⟩⟩

theorem scanCells_ok (fuel : Nat) (rng : RNG) :
    ∀ (cells : List (Nat × Nat)) (st : ScanState) (k : Nat) (st' : ScanState) (k' : Nat),
      scanCells fuel rng cells st k = .ok (st', k') →
      (∀ p ∈ cells, p.1 < 9 ∧ p.2 < 9) →
      st.lowest ≠ ∅ →
      ((WF st.solver.sudoku → WF st'.solver.sudoku)
        ∧ st'.solver.last_secure_state = st.solver.last_secure_state
        ∧ st'.solver.last_secure_state_set = st.solver.last_secure_state_set
        ∧ st'.lowest ≠ ∅
        ∧ (st.changed = true → st'.changed = true)
        ∧ (TrackedOk st → st'.changed = false → TrackedOk st')
        ∧ (st.changed = false → st.lowest = all_possible → st'.changed = false →
            (TrackedOk st' ∨ (st' = st ∧ ∀ p ∈ cells,
              st.solver.sudoku.squares (coords p.1 p.2) ≠ 0)))
        ∧ ((st.certain = true → (st.changed = false ∧ st.lowest = all_possible)) →
            (st'.certain = true → (st'.changed = false ∧ st'.lowest = all_possible)))) := by
  intro cells
  induction cells with
  | nil =>
    intro st k st' k' h _ hlow
    rw [scanCells] at h
    simp only [Except.ok.injEq, Prod.mk.injEq] at h
    obtain ⟨rfl, rfl⟩ := h
    exact ⟨id, rfl, rfl, hlow, id, fun hT _ => hT, fun _ _ _ => Or.inr ⟨rfl, by simp⟩, id⟩
  | cons p rest ih =>
    obtain ⟨row, column⟩ := p
    intro st k st' k' h hcells hlow
    have hhead := hcells (row, column) (List.mem_cons_self _ _)
    have hrest : ∀ p ∈ rest, p.1 < 9 ∧ p.2 < 9 :=
      fun p hp => hcells p (List.mem_cons_of_mem _ hp)
    rw [scanCells] at h
    split at h
    · exact absurd h (by simp)
    · -- the cell is already set: skip it
      rename_i hisset
      obtain ⟨ihwf, ihs1, ihs2, ihlow, ihchm, ihtrk, ihpr, ihcert⟩ :=
        ih st k st' k' h hrest hlow
      obtain ⟨_, _, hbit⟩ := is_set_ok_inv _ _ _ _ hisset
      refine ⟨ihwf, ihs1, ihs2, ihlow, ihchm, ihtrk, ?_, ihcert⟩
      intro hch hlowall hch'
      rcases ihpr hch hlowall hch' with hT | ⟨heq, hall⟩
      · exact Or.inl hT
      · refine Or.inr ⟨heq, ?_⟩
        intro q hq
        rcases List.mem_cons.mp hq with rfl | hq'
        · exact hbit.mp rfl
        · exact hall q hq'
    · -- the cell is unset: process it
      rename_i hisset
      split at h
      · exact absurd h (by simp)
      · rename_i st1 k1 hproc
        obtain ⟨pwf, psn1, psn2, plow, pchm, pcert, pnoc⟩ :=
          processCell_ok fuel rng row column st k st1 k1 hproc hhead.1 hhead.2 hlow
        obtain ⟨ihwf, ihs1, ihs2, ihlow, ihchm, ihtrk, ihpr, ihcert⟩ :=
          ih st1 k1 st' k' h hrest plow
        refine ⟨fun hwf => ihwf (pwf hwf), ihs1.trans psn1, ihs2.trans psn2, ihlow,
          ?_, ?_, ?_, ?_⟩
        · intro hch
          rcases pchm with h1 | h1
          · exact ihchm h1
          · exact ihchm (h1.trans hch)
        · intro hT hch'
          have hch1 : st1.changed = false := by
            cases hc1 : st1.changed
            · rfl
            · exact absurd (ihchm hc1) (by rw [hch']; simp)
          obtain ⟨hchpres, hclr1, hdich⟩ := pnoc hch1
          have hT1 : TrackedOk st1 := by
            rcases hdich with hT1 | ⟨hle, hlc, _⟩
            · exact hT1
            · obtain ⟨ha, hb, hcne, hsub⟩ := hT
              refine ⟨by rw [hlc]; exact ha, by rw [hlc]; exact hb,
                by rw [hle]; exact hcne, ?_⟩
              rw [hle, hlc]
              exact hsub.trans (possOf_mono _ _ hclr1 _ _)
          exact ihtrk hT1 hch'
        · intro hch hlowall hch'
          have hch1 : st1.changed = false := by
            cases hc1 : st1.changed
            · rfl
            · exact absurd (ihchm hc1) (by rw [hch']; simp)
          obtain ⟨hchpres, hclr1, hdich⟩ := pnoc hch1
          have hT1 : TrackedOk st1 := by
            rcases hdich with hT1 | ⟨_, _, hcardlt⟩
            · exact hT1
            · rw [hlowall, card_all_possible] at hcardlt
              omega
          exact Or.inl (ihtrk hT1 hch')
        · intro hH
          apply ihcert
          intro hcert1
          obtain ⟨hcst, hchg, hlowe, hcardlt⟩ := pcert hcert1
          obtain ⟨hcf, hla⟩ := hH hcst
          rw [hla, card_all_possible] at hcardlt
          omega

theorem cellList_bounds : ∀ p ∈ cellList, p.1 < 9 ∧ p.2 < 9 := by
  intro p hp
  simp only [cellList, List.mem_map, List.mem_range] at hp
  obtain ⟨i, hi, rfl⟩ := hp
  exact ⟨by omega, by omega⟩

theorem cellList_all (g : Grid) (hall : ∀ p ∈ cellList, g (coords p.1 p.2) ≠ 0) :
    ∀ i : Nat, i < 81 → g i ≠ 0 := by
  intro i hi
  have hmem : ((i / 9, i % 9) : Nat × Nat) ∈ cellList := by
    simp only [cellList, List.mem_map, List.mem_range]
    exact ⟨i, hi, rfl⟩
  have h2 := hall _ hmem
  simp only [coords_def] at h2
  have heq : i / 9 * 9 + i % 9 = i := by omega
  rwa [heq] at h2

theorem all_possible_ne_empty : all_possible ≠ ∅ := by decide

theorem step_ok (fuel : Nat) (sv : Solver) (rng : RNG) (k : Nat) (sv' : Solver) (k' : Nat)
    (h : Solver.step fuel sv rng k = .ok (sv', k')) :
    (sv'.last_secure_state = sv.last_secure_state
      ∧ sv'.last_secure_state_set = sv.last_secure_state_set)
    ∧ (WF sv.sudoku → sv.sudoku.set_count < 81 → WF sv'.sudoku) := by
  rw [Solver.step] at h
  split at h
  · exact absurd h (by simp)
  · rename_i st k1 hscan
    obtain ⟨swf, ssn1, ssn2, slow, schm, strk, spr, scert⟩ :=
      scanCells_ok fuel rng cellList _ k st k1 hscan cellList_bounds all_possible_ne_empty
    split at h
    · -- no square was set during the scan: commit a random guess
      rename_i hch
      simp only [] at h
      split at h
      · exact absurd h (by simp)
      · rename_i hlen
        split at h
        · exact absurd h (by simp)
        · rename_i sd hset
          simp only [Except.ok.injEq, Prod.mk.injEq] at h
          obtain ⟨h1, rfl⟩ := h
          subst h1
          refine ⟨⟨ssn1, ssn2⟩, ?_⟩
          intro hwf hlt
          rcases spr rfl rfl hch with hT | ⟨heq, hall⟩
          · -- the tracked cell receives a member of its candidate set
            obtain ⟨ha, hb, hcne, hsub⟩ := hT
            have hidx : rng k1 % (valueVec st.lowest).length < (valueVec st.lowest).length :=
              Nat.mod_lt _ (Nat.pos_of_ne_zero hlen)
            have hvmem : (valueVec st.lowest).get
                ⟨rng k1 % (valueVec st.lowest).length, hidx⟩ ∈ st.lowest := by
              have hm := List.get_mem (valueVec st.lowest) _ hidx
              exact ((mem_valueVec _ _).mp hm).2
            exact set_preserves_WF _ _ _ _ _ hset (swf hwf) (Or.inr (hsub hvmem))
          · -- impossible: every cell was already set, yet `set_count < 81`
            exfalso
            have h81 : ∀ i : Nat, i < 81 → sv.sudoku.squares i ≠ 0 := cellList_all _ hall
            have hcnt : nonzeroCount sv.sudoku.squares = 81 := by
              have hfull : ((List.range 81).filter fun i => sv.sudoku.squares i != 0)
                  = List.range 81 := by
                apply List.filter_eq_self.mpr
                intro i hi
                simpa using h81 i (List.mem_range.mp hi)
              simp [nonzeroCount, hfull]
            obtain ⟨hwc, _⟩ := hwf
            omega
    · -- some square was set: `certain` is necessarily false by now
      rename_i hch
      split at h
      · rename_i hcond
        exfalso
        have hcert : st.certain = true := by
          simp only [Bool.and_eq_true] at hcond
          exact hcond.2
        have := (scert (fun _ => ⟨rfl, rfl⟩) hcert).1
        exact hch this
      · simp only [Except.ok.injEq, Prod.mk.injEq] at h
        obtain ⟨h1, rfl⟩ := h
        subst h1
        exact ⟨⟨ssn1, ssn2⟩, fun hwf _ => swf hwf⟩

theorem solve_ok (stepFuel : Nat) (rng : RNG) :
    ∀ (fuel : Nat) (sv : Solver) (k : Nat) (sv' : Solver) (k' : Nat),
      Solver.solve fuel stepFuel sv rng k = .ok (sv', k') →
      (sv'.last_secure_state = sv.last_secure_state
        ∧ sv'.last_secure_state_set = sv.last_secure_state_set)
      ∧ (WF sv.sudoku → (WF sv'.sudoku ∧ sv'.sudoku.set_count = 81)) := by
  intro fuel
  induction fuel with
  | zero =>
    intro sv k sv' k' h
    rw [Solver.solve] at h
    split at h
    · exact absurd h (by simp)
    · rename_i hge
      simp only [Except.ok.injEq, Prod.mk.injEq] at h
      obtain ⟨rfl, rfl⟩ := h
      refine ⟨⟨rfl, rfl⟩, fun hwf => ⟨hwf, ?_⟩⟩
      have hle := nonzeroCount_le sv.sudoku.squares
      rw [hwf.1] at hge ⊢
      omega
  | succ f ih =>
    intro sv k sv' k' h
    rw [Solver.solve] at h
    split at h
    · rename_i hlt
      split at h
      · exact absurd h (by simp)
      · rename_i sv1 k1 hstep
        obtain ⟨⟨dsn1, dsn2⟩, dwf⟩ := step_ok stepFuel sv rng k sv1 k1 hstep
        obtain ⟨⟨isn1, isn2⟩, iwf⟩ := ih sv1 k1 sv' k' h
        refine ⟨⟨isn1.trans dsn1, isn2.trans dsn2⟩, ?_⟩
        intro hwf
        exact iwf (dwf hwf hlt)
    · rename_i hge
      simp only [Except.ok.injEq, Prod.mk.injEq] at h
      obtain ⟨rfl, rfl⟩ := h
      refine ⟨⟨rfl, rfl⟩, fun hwf => ⟨hwf, ?_⟩⟩
      have hle := nonzeroCount_le sv.sudoku.squares
      rw [hwf.1] at hge ⊢
      omega

theorem new_from_state_WF (g : Grid) (hsolv : Solvable g) : WF (Sudoku.new_from_state g) := by
  refine ⟨new_from_state_count g, ?_⟩
  obtain ⟨sol, ⟨hrange, hleg⟩, hext⟩ := hsolv
  intro i j hne hunit hi hj
  rw [new_from_state_squares, if_pos i.isLt] at hi ⊢
  rw [new_from_state_squares, if_pos j.isLt] at hj ⊢
  have hsi := hext i hi
  have hsj := hext j hj
  have hi0 : sol i.val ≠ 0 := by have := (hrange i).1; omega
  have hj0 : sol j.val ≠ 0 := by have := (hrange j).1; omega
  have := hleg i j hne hunit hi0 hj0
  rw [hsi, hsj] at this
  exact this

/-- C1: if `solve`, run on a solver built over a solvable partially-filled
grid, returns `Ok`, then the final grid's `set_count` equals `81` and the
final grid satisfies Sudoku legality — for every row, every column, and
every 3*3 block, all non-zero values are pairwise distinct. -/
theorem solve_ok_complete_and_legal (fuel stepFuel : Nat) (rng : RNG) (k : Nat)
    (g : Grid) (sv' : Solver) (k' : Nat)
    (hsolv : Solvable g)
    (h : Solver.solve fuel stepFuel (Solver.new (Sudoku.new_from_state g)) rng k
      = .ok (sv', k')) :
    sv'.sudoku.set_count = 81 ∧ LegalGrid sv'.sudoku.squares := by
  obtain ⟨_, hwf⟩ := solve_ok stepFuel rng fuel _ k sv' k' h
  obtain ⟨⟨_, hleg⟩, hcnt⟩ := hwf (new_from_state_WF g hsolv)
  exact ⟨hcnt, hleg⟩

/-- C2: `set_last_secure_state` is never invoked after construction.  A
successful `step` returns a solver whose `last_secure_state` and
`last_secure_state_set` equal the input solver's, for every solver state
and every sequence of random draws; consequently a successful `solve` on
a freshly constructed solver ends with `last_secure_state` still equal to
the grid captured at `Solver::new` and with `last_secure_state_set` still
`false`, so dead-end repair eligibility is always judged against the
initial grid. -/
theorem secure_state_never_retaken :
    (∀ (stepFuel : Nat) (sv : Solver) (rng : RNG) (k : Nat) (sv' : Solver) (k' : Nat),
        Solver.step stepFuel sv rng k = .ok (sv', k') →
        sv'.last_secure_state = sv.last_secure_state
          ∧ sv'.last_secure_state_set = sv.last_secure_state_set)
    ∧ (∀ (fuel stepFuel : Nat) (rng : RNG) (k : Nat) (s : Sudoku) (sv' : Solver) (k' : Nat),
        Solver.solve fuel stepFuel (Solver.new s) rng k = .ok (sv', k') →
        sv'.last_secure_state = s.squares ∧ sv'.last_secure_state_set = false) := by
  constructor
  · intro stepFuel sv rng k sv' k' h
    exact (step_ok stepFuel sv rng k sv' k' h).1
  · intro fuel stepFuel rng k s sv' k' h
    obtain ⟨⟨h1, h2⟩, _⟩ := solve_ok stepFuel rng fuel _ k sv' k' h
    exact ⟨h1, h2⟩

/-- C5: for all in-range coordinates, `get_possible` returns `Ok` with a
set that is a subset of `{1, ..., 9}` — hence of size at most 9 — and
that contains no value of the cell's row, of its column, or of its 3*3
block. -/
theorem get_possible_sound (sv : Solver) (r c : Nat) (hr : r < 9) (hc : c < 9) :
    ∃ poss, sv.get_possible r c = .ok poss
      ∧ poss ⊆ all_possible
      ∧ poss.card ≤ 9
      ∧ (∀ rv, sv.sudoku.get_row r = .ok rv → ∀ i : Fin 9, rv i ∉ poss)
      ∧ (∀ cv, sv.sudoku.get_column c = .ok cv → ∀ i : Fin 9, cv i ∉ poss)
      ∧ (∀ bv, sv.sudoku.get_block (r / 3) (c / 3) = .ok bv → ∀ i : Fin 9, bv i ∉ poss) := by
  refine ⟨possOf sv.sudoku.squares r c, get_possible_eq sv r c hr hc, possOf_subset _ _ _,
    possOf_card_le _ _ _, ?_, ?_, ?_⟩
  · intro rv hrv i hmem
    rw [Sudoku.get_row, if_neg (by omega)] at hrv
    have hrveq := Except.ok.inj hrv
    obtain ⟨_, hav⟩ := (mem_possOf _ _ _ _).mp hmem
    exact (hav i).1 (by rw [← hrveq])
  · intro cv hcv i hmem
    rw [Sudoku.get_column, if_neg (by omega)] at hcv
    have hcveq := Except.ok.inj hcv
    obtain ⟨_, hav⟩ := (mem_possOf _ _ _ _).mp hmem
    exact (hav i).2.1 (by rw [← hcveq])
  · intro bv hbv i hmem
    rw [Sudoku.get_block, if_neg (by omega : ¬(3 ≤ r / 3 ∨ 3 ≤ c / 3))] at hbv
    have hbveq := Except.ok.inj hbv
    obtain ⟨_, hav⟩ := (mem_possOf _ _ _ _).mp hmem
    exact (hav i).2.2 (by rw [← hbveq])

/-- C6: every sudoku reachable through the public constructors and
mutators has `set_count` equal to the number of non-zero cells of
`squares`; moreover a successful `set` adjusts `set_count` by `+1` on a
`0 → nonzero` transition, by `-1` on a `nonzero → 0` transition, and
leaves it unchanged otherwise, including `nonzero → different nonzero`. -/
theorem set_count_invariant :
    (∀ s : Sudoku, Reachable s → s.set_count = nonzeroCount s.squares)
    ∧ (∀ (s : Sudoku) (r c v : Nat) (s' : Sudoku), Reachable s → s.set r c v = .ok s' →
        ((s.squares (coords r c) = 0 ∧ v ≠ 0 → s'.set_count = s.set_count + 1)
          ∧ (s.squares (coords r c) ≠ 0 ∧ v = 0 → s'.set_count + 1 = s.set_count)
          ∧ ((s.squares (coords r c) = 0 ∧ v = 0)
              ∨ (s.squares (coords r c) ≠ 0 ∧ v ≠ 0) →
              s'.set_count = s.set_count))) := by
  have hmain : ∀ s : Sudoku, Reachable s → s.set_count = nonzeroCount s.squares := by
    intro s hs
    induction hs with
    | empty => exact new_empty_count
    | fromState state => exact new_from_state_count state
    | set s r c v s' _ hset ih => exact set_preserves_count s r c v s' hset ih
  refine ⟨hmain, ?_⟩
  intro s r c v s' hreach hset
  obtain ⟨hr9, hc9, hv9, _, hcnt⟩ := set_ok_inv _ _ _ _ _ hset
  refine ⟨?_, ?_, ?_⟩
  · rintro ⟨h0, hv⟩
    rw [hcnt, if_pos h0, if_pos hv]
  · rintro ⟨h0, hv⟩
    rw [hcnt, if_neg h0, if_pos hv]
    have hpos : 1 ≤ nonzeroCount s.squares :=
      nonzeroCount_pos s.squares (coords r c) (by simp only [coords_def]; omega) h0
    rw [hmain s hreach]
    omega
  · rintro (⟨h0, hv⟩ | ⟨h0, hv⟩)
    · rw [hcnt, if_pos h0, if_neg (by simp [hv])]
    · rw [hcnt, if_neg h0, if_neg hv]

/-- C7: each grid operation fails exactly on out-of-range arguments, with
the typed error carrying those exact arguments, and succeeds otherwise. -/
theorem grid_ops_error_spec (s : Sudoku) (r c v br bc : Nat) :
    (s.get_row r = .error (.BadRow r) ↔ 9 ≤ r)
    ∧ ((∃ a, s.get_row r = .ok a) ↔ r < 9)
    ∧ (s.get_column c = .error (.BadColumn c) ↔ 9 ≤ c)
    ∧ ((∃ a, s.get_column c = .ok a) ↔ c < 9)
    ∧ (s.get_block br bc = .error (.BadCoordinates br bc) ↔ 3 ≤ br ∨ 3 ≤ bc)
    ∧ ((∃ a, s.get_block br bc = .ok a) ↔ br < 3 ∧ bc < 3)
    ∧ (s.set r c v = .error (.BadCoordinates r c) ↔ 9 ≤ r ∨ 9 ≤ c)
    ∧ (s.set r c v = .error (.BadValue v) ↔ (r < 9 ∧ c < 9 ∧ 9 < v))
    ∧ ((∃ s', s.set r c v = .ok s') ↔ r < 9 ∧ c < 9 ∧ v ≤ 9)
    ∧ (s.is_set r c = .error (.BadCoordinates r c) ↔ 9 ≤ r ∨ 9 ≤ c)
    ∧ ((∃ b, s.is_set r c = .ok b) ↔ r < 9 ∧ c < 9) := by
  unfold Sudoku.get_row Sudoku.get_column Sudoku.get_block Sudoku.set Sudoku.is_set
  refine ⟨?_, ?_, ?_, ?_, ?_, ?_, ?_, ?_, ?_, ?_, ?_⟩ <;>
    (split_ifs <;> simp_all <;> omega)

theorem foldl_append_shift :
    ∀ (l : List String) (acc : String),
      l.foldl (· ++ ·) acc = acc ++ l.foldl (· ++ ·) "" := by
  intro l
  induction l with
  | nil => intro acc; simp [String.append_empty]
  | cons a t ih =>
    intro acc
    rw [List.foldl_cons, ih, List.foldl_cons, ih ("" ++ a), String.empty_append,
      String.append_assoc]

theorem foldl_append_map (f : Nat → String) :
    ∀ (l : List Nat) (acc : String),
      l.foldl (fun a i => a ++ f i) acc = acc ++ (l.map f).foldl (· ++ ·) "" := by
  intro l
  induction l with
  | nil => intro acc; simp [String.append_empty]
  | cons a t ih =>
    intro acc
    rw [List.foldl_cons, ih, List.map_cons, List.foldl_cons, foldl_append_shift _ ("" ++ f a),
      String.empty_append, String.append_assoc]

/-- C10: the text rendering of a sudoku is exactly the concatenation over
the 81 cells in row-major order of the cell's separator — the divider
line before multiples of 27, a newline before other multiples of 9, a bar
before other multiples of 3, nothing before cell 0 or other cells —
followed by the cell's text, `"v "` for a non-zero value and two spaces
for an empty cell. -/
theorem render_eq_renderSpec (s : Sudoku) : s.render = renderSpec s := by
  rw [Sudoku.render, renderSpec]
  have hbody : ∀ (acc : String), ∀ i ∈ List.range 81,
      (let acc1 :=
        if i ≠ 0 then
          if i % 27 = 0 then acc ++ "\n----------------------\n"
          else if i % 9 = 0 then acc ++ "\n"
          else if i % 3 = 0 then acc ++ "| "
          else acc
        else acc
      if s.squares i ≠ 0 then acc1 ++ toString (s.squares i) ++ " " else acc1 ++ "  ")
        = acc ++ (sepText i ++ cellText (s.squares i)) := by
    intro acc i _
    by_cases h0 : i = 0 <;> by_cases h27 : i % 27 = 0 <;> by_cases h9 : i % 9 = 0 <;>
      by_cases h3 : i % 3 = 0 <;> by_cases hv : s.squares i = 0 <;>
      simp_all [sepText, cellText, String.append_assoc,
        String.append_empty, String.empty_append]
  rw [List.foldl_ext _ _ "" hbody, foldl_append_map, String.empty_append]

/-- C3 (amended): the fewest-candidate tracking of the scan of
`Solver::step` (the `<=` comparison) replaces the tracked cell whenever
the scanned cell's candidate count is less than or equal to the running
minimum; on a tie it is therefore the newly scanned — latest-found in
row-major order — cell that becomes the tracked cell that a later random
guess would be committed to, not the earliest-found one. -/
theorem tie_tracks_latest (poss : Finset Nat) (row column : Nat) (certain : Bool)
    (lowest : Finset Nat) (lowestCoords : Coordinates)
    (htie : poss.card = lowest.card) :
    trackLowest poss row column certain lowest lowestCoords
      = (false, poss, { row := row, column := column }) := by
  rw [trackLowest, if_pos (by omega)]

theorem genClear_foldl (difficulty : Nat) (rng : RNG) (k1 : Nat) :
    ∀ (l : List Nat) (g : Grid) (j : Nat),
      (l.foldl (genClear difficulty rng k1) g) j
        = if j ∈ l ∧ rng (k1 + j) % 100 < difficulty then 0 else g j := by
  intro l
  induction l with
  | nil => intro g j; simp
  | cons a t ih =>
    intro g j
    rw [List.foldl_cons, ih]
    have hgc : genClear difficulty rng k1 g a j
        = if j = a ∧ rng (k1 + j) % 100 < difficulty then 0 else g j := by
      rw [genClear]
      by_cases hca : rng (k1 + a) % 100 < difficulty
      · rw [if_pos hca, Function.update_apply]
        by_cases hja : j = a
        · subst hja
          simp [hca]
        · simp [hja]
      · rw [if_neg hca]
        by_cases hja : j = a
        · subst hja
          simp [hca]
        · simp [hja]
    rw [hgc]
    by_cases hja : j = a <;> by_cases hjt : j ∈ t <;>
      by_cases hcond : rng (k1 + j) % 100 < difficulty <;>
      simp_all [List.mem_cons]

theorem LegalGrid_empty : LegalGrid Sudoku.new_empty.squares :=
  fun _ _ _ _ hi _ => absurd rfl hi

/-- C9: whenever `generate` returns `Ok` — which requires the internal
`solve` of the empty grid to return `Ok` with a completely filled, legal
solution — the returned sudoku has its `set_count` recomputed to match
its non-zero cells, every one of its non-zero cells equals the
corresponding cell of the computed full solution, difficulty `0` returns
that fully solved legal grid untouched with `set_count` 81, and any
difficulty of at least `100` returns the entirely empty grid with
`set_count` 0. -/
theorem generate_spec (fuel stepFuel difficulty : Nat) (rng : RNG) (k : Nat) :
    (match Solver.generate fuel stepFuel difficulty rng k with
      | .error _ => True
      | .ok sd =>
        ∃ sv1 k1,
          Solver.solve fuel stepFuel (Solver.new Sudoku.new_empty) rng k = .ok (sv1, k1)
            ∧ sv1.sudoku.set_count = 81
            ∧ LegalGrid sv1.sudoku.squares
            ∧ (∀ i, i < 81 → sv1.sudoku.squares i ≠ 0)
            ∧ sd.set_count = nonzeroCount sd.squares
            ∧ (∀ i, i < 81 → sd.squares i ≠ 0 → sd.squares i = sv1.sudoku.squares i)
            ∧ (difficulty = 0 →
                (∀ i, i < 81 → sd.squares i = sv1.sudoku.squares i)
                  ∧ sd.set_count = 81 ∧ LegalGrid sd.squares)
            ∧ (100 ≤ difficulty → (∀ i, sd.squares i = 0) ∧ sd.set_count = 0)) := by
  rw [Solver.generate]
  split
  · trivial
  · rename_i x sd heq
    split at heq
    · exact absurd heq (by simp)
    · rename_i sv1 k1 hsolve
      rw [← Except.ok.inj heq]
      obtain ⟨_, hwf⟩ := solve_ok stepFuel rng fuel _ k sv1 k1 hsolve
      obtain ⟨⟨hcw, hleg⟩, hcnt⟩ := hwf ⟨new_empty_count, LegalGrid_empty⟩
      have hfull : ∀ i, i < 81 → sv1.sudoku.squares i ≠ 0 := by
        apply nonzeroCount_eq_81
        rw [← hcw]
        exact hcnt
      have hfin : ∀ j : Nat,
          ((List.range 81).foldl (genClear difficulty rng k1) sv1.sudoku.squares) j
            = if j ∈ List.range 81 ∧ rng (k1 + j) % 100 < difficulty then 0
              else sv1.sudoku.squares j :=
        genClear_foldl difficulty rng k1 (List.range 81) sv1.sudoku.squares
      refine ⟨sv1, k1, hsolve, hcnt, hleg, hfull, new_from_state_count _, ?_, ?_, ?_⟩
      · -- every non-zero cell of the result equals the solution's cell
        intro i hi hne
        rw [new_from_state_squares, if_pos hi, hfin i] at hne ⊢
        by_cases hcl : i ∈ List.range 81 ∧ rng (k1 + i) % 100 < difficulty
        · rw [if_pos hcl] at hne
          exact absurd rfl hne
        · rw [if_neg hcl]
      · -- difficulty 0: nothing is cleared
        rintro rfl
        have hnc : ∀ j, j < 81 →
            ((List.range 81).foldl (genClear 0 rng k1) sv1.sudoku.squares) j
              = sv1.sudoku.squares j := by
          intro j _
          rw [hfin j, if_neg (by simp)]
        refine ⟨?_, ?_, ?_⟩
        · intro i hi
          rw [new_from_state_squares, if_pos hi, hnc i hi]
        · rw [new_from_state_count]
          have hfull2 : ((List.range 81).filter fun i =>
              (Sudoku.new_from_state ((List.range 81).foldl (genClear 0 rng k1)
                sv1.sudoku.squares)).squares i != 0) = List.range 81 := by
            apply List.filter_eq_self.mpr
            intro i hi
            rw [new_from_state_squares, if_pos (List.mem_range.mp hi),
              hnc i (List.mem_range.mp hi)]
            simpa using hfull i (List.mem_range.mp hi)
          rw [nonzeroCount, hfull2]
          simp
        · intro i j hne hunit hi hj
          rw [new_from_state_squares, if_pos i.isLt, hnc i.val i.isLt] at hi ⊢
          rw [new_from_state_squares, if_pos j.isLt, hnc j.val j.isLt] at hj ⊢
          exact hleg i j hne hunit hi hj
      · -- difficulty at least 100: everything is cleared
        intro h100
        have hz : ∀ j, (Sudoku.new_from_state ((List.range 81).foldl
            (genClear difficulty rng k1) sv1.sudoku.squares)).squares j = 0 := by
          intro j
          rw [new_from_state_squares]
          by_cases hj : j < 81
          · have hcond : rng (k1 + j) % 100 < difficulty := by
              have := Nat.mod_lt (rng (k1 + j)) (show 0 < 100 by omega)
              omega
            rw [if_pos hj, hfin j, if_pos ⟨List.mem_range.mpr hj, hcond⟩]
          · rw [if_neg hj]
        refine ⟨hz, ?_⟩
        rw [new_from_state_count]
        have hnil : ((List.range 81).filter fun i =>
            (Sudoku.new_from_state ((List.range 81).foldl (genClear difficulty rng k1)
              sv1.sudoku.squares)).squares i != 0) = [] := by
          apply List.filter_eq_nil_iff.mpr
          intro i _
          simpa using hz i
        rw [nonzeroCount, hnil]
        rfl

end SymbolicProofs

/-- Witness for C1: on the already complete grid `gsol`, `solve` returns
`Ok` at once and the conclusion holds. -/
theorem solve_ok_complete_and_legal_witness :
    (Solver.new (Sudoku.new_from_state gsol)).sudoku.set_count = 81
      ∧ LegalGrid (Solver.new (Sudoku.new_from_state gsol)).sudoku.squares :=
  solve_ok_complete_and_legal 0 0 (fun _ => 0) 0 gsol
    (Solver.new (Sudoku.new_from_state gsol)) 0
    ⟨gsol, by decide, fun _ _ => rfl⟩ (by rfl)

/-- Witness for C2: applying the theorem at a concrete solver run. -/
theorem secure_state_never_retaken_witness :
    (Solver.new (Sudoku.new_from_state gsol)).last_secure_state
        = (Sudoku.new_from_state gsol).squares
      ∧ (Solver.new (Sudoku.new_from_state gsol)).last_secure_state_set = false :=
  secure_state_never_retaken.2 0 0 (fun _ => 0) 0 (Sudoku.new_from_state gsol)
    (Solver.new (Sudoku.new_from_state gsol)) 0 (by rfl)

/-- Witness for C5: on a solver over the empty grid all nine values are
possible at `(0, 0)`, and the row value `0` is not among them. -/
theorem get_possible_sound_witness :
    (Solver.new Sudoku.new_empty).get_possible 0 0 = .ok all_possible
      ∧ rowVals Sudoku.new_empty.squares 0 0 ∉ all_possible := by
  obtain ⟨poss, h1, hsub, hcard, hrow, hcol, hblk⟩ :=
    get_possible_sound (Solver.new Sudoku.new_empty) 0 0 (by omega) (by omega)
  have hpe : poss = all_possible := by
    have h2 : (Except.ok poss : Except SudokuError (Finset Nat)) = .ok all_possible := by
      rw [← h1]; rfl
    exact Except.ok.inj h2
  subst hpe
  exact ⟨h1, hrow _ (by rfl) 0⟩

/-- C8: for every in-range cell, its neighbor set has exactly 20 distinct
members, does not contain the cell itself, and every member is an
in-range cell sharing the cell's row, column, or 3*3 block. -/
theorem neighbors_spec (r c : Nat) (hr : r < 9) (hc : c < 9) :
    (neighborsFrom { row := r, column := c }).card = 20
      ∧ ({ row := r, column := c } : Coordinates) ∉ neighborsFrom { row := r, column := c }
      ∧ ∀ n ∈ neighborsFrom { row := r, column := c },
          n.row < 9 ∧ n.column < 9
            ∧ (n.row = r ∨ n.column = c
                ∨ (n.row / 3 = r / 3 ∧ n.column / 3 = c / 3)) := by
  have key : ∀ rf cf : Fin 9,
      (neighborsFrom { row := rf.val, column := cf.val }).card = 20
        ∧ ({ row := rf.val, column := cf.val } : Coordinates)
            ∉ neighborsFrom { row := rf.val, column := cf.val }
        ∧ ∀ n ∈ neighborsFrom { row := rf.val, column := cf.val },
            n.row < 9 ∧ n.column < 9
              ∧ (n.row = rf.val ∨ n.column = cf.val
                  ∨ (n.row / 3 = rf.val / 3 ∧ n.column / 3 = cf.val / 3)) := by decide
  exact key ⟨r, hr⟩ ⟨c, hc⟩

/-- Witness for C8: the neighbor set of `(1, 2)` has exactly 20 members
and excludes `(1, 2)` itself. -/
theorem neighbors_spec_witness :
    (neighborsFrom { row := 1, column := 2 }).card = 20
      ∧ ({ row := 1, column := 2 } : Coordinates) ∉ neighborsFrom { row := 1, column := 2 } :=
  ⟨(neighbors_spec 1 2 (by omega) (by omega)).1,
    (neighbors_spec 1 2 (by omega) (by omega)).2.1⟩

/-- Witness for C6: the empty sudoku is reachable and satisfies the
count invariant. -/
theorem set_count_invariant_witness :
    Sudoku.new_empty.set_count = nonzeroCount Sudoku.new_empty.squares :=
  set_count_invariant.1 Sudoku.new_empty Reachable.empty

/-- Witness for C7: concrete failing and succeeding calls. -/
theorem grid_ops_error_spec_witness :
    Sudoku.new_empty.get_row 10 = .error (.BadRow 10)
      ∧ (∃ s', Sudoku.new_empty.set 0 0 9 = .ok s') := by
  obtain ⟨hrow, _, _, _, _, _, _, _, hset, _, _⟩ :=
    grid_ops_error_spec Sudoku.new_empty 10 0 9 0 0
  refine ⟨hrow.mpr (by omega), ?_⟩
  obtain ⟨h1, _, _, _, _, _, _, _, hset9, _, _⟩ :=
    grid_ops_error_spec Sudoku.new_empty 0 0 9 0 0
  exact hset9.mpr ⟨by omega, by omega, by omega⟩

/-- Counterexample for C3: one `step` on the empty grid.  Every one of
the 81 cells is unset with the same nine-candidate set, so every cell
ties; the earliest-found tie cell is `(0, 0)`, yet the random guess is
committed to the latest-found tie cell `(8, 8)` — its square receives the
drawn value `1` while `(0, 0)` stays `0` — refuting the claim that the
earliest-found cell is kept as the tracked cell the guess is committed
to. -/
theorem tie_keeps_earliest_counterexample :
    (Solver.step 1 (Solver.new Sudoku.new_empty) (fun _ => 0) 0).map
        (fun p => (p.1.sudoku.squares (coords 8 8), p.1.sudoku.squares (coords 0 0)))
      = .ok (1, 0) := by rfl

/-- Witness for the amended C3: a concrete tie in which the tracked cell
is replaced by the newly scanned cell. -/
theorem tie_tracks_latest_witness :
    trackLowest {1, 2} 5 6 true {8, 9} { row := 0, column := 0 }
      = (false, {1, 2}, { row := 5, column := 6 }) :=
  tie_tracks_latest {1, 2} 5 6 true {8, 9} { row := 0, column := 0 } (by decide)

/-- C4: a reachable solver state — `Solver::new` over the grid `g4` —
has an unset cell `(0, 0)` with an empty candidate set all of whose 20
neighbors are non-zero in the secure snapshot; on it the dead-end repair
loop of `step` computes an empty eligible-neighbor collection and then
draws a random index from that empty collection, which the embedding
models as the `emptyRange` error (`rand` panics on `gen_range(0..0)`):
the repair selection is not total, whatever the random stream. -/
theorem dead_end_repair_not_total :
    (Sudoku.new_from_state g4).is_set 0 0 = .ok false
      ∧ (Solver.new (Sudoku.new_from_state g4)).get_possible 0 0 = .ok ∅
      ∧ (∀ n ∈ neighborsFrom { row := 0, column := 0 },
          (Solver.new (Sudoku.new_from_state g4)).last_secure_state
            (coords n.row n.column) ≠ 0)
      ∧ ((neighborsFrom { row := 0, column := 0 }).filter fun n =>
          (Solver.new (Sudoku.new_from_state g4)).last_secure_state
            (coords n.row n.column) = 0) = ∅
      ∧ ∀ (rng : RNG) (k : Nat),
          Solver.step 5 (Solver.new (Sudoku.new_from_state g4)) rng k
            = .error .emptyRange :=
  ⟨rfl, rfl, by decide, by decide, fun _ _ => rfl⟩

end SudokuRs




